import Mathlib

/-!
# Verification of the AWA TJM-aggregation ETL and API logic

Shallow embedding of the AWA repository's data-processing functions:
the frontend utility helpers (technology normalization, TJM validation,
average computation, median), the location parsing of the
`location-stats` API route, the `offers` API route handlers together
with the database uniqueness constraint, and the ETL rate parser and
quality scorer.  JavaScript numbers are modelled as `ℚ` (or `Int` where
the source only ever holds integers), JavaScript object-literal lookup
as a finite map, and fallible routes as explicit result types.
-/

namespace AWA

/-! ## Frontend utility helpers (jest utility test module)

`normalizeTechnology` looks the lowercased input up in a static
`Record<string, string>` and falls back to the input itself. -/

/-- JavaScript `String.prototype.toLowerCase()`, modelled as a
character-wise lowercase map over the string's characters. -/
def jsToLower (s : String) : String := ⟨s.data.map Char.toLower⟩

/-- The static technology mapping `techMap` from the utility module,
as a lookup returning `none` for absent keys. -/
def techMap (s : String) : Option String :=
  if s = "javascript" then some "Javascript"
  else if s = "js" then some "Javascript"
  else if s = "react" then some "React"
  else if s = "reactjs" then some "React"
  else if s = "vue" then some "Vue.js"
  else if s = "vuejs" then some "Vue.js"
  else if s = "angular" then some "Angular"
  else if s = "nodejs" then some "Node.js"
  else if s = "node" then some "Node.js"
  else if s = "typescript" then some "Typescript"
  else if s = "ts" then some "Typescript"
  else none

/-- `normalizeTechnology(tech) = techMap[tech.toLowerCase()] || tech`. -/
def normalizeTechnology (tech : String) : String :=
  (techMap (jsToLower tech)).getD tech

/-- `isValidTjmRange(min, max) = min > 0 && max > 0 && min <= max`. -/
def isValidTjmRange (min max : Int) : Bool :=
  min > 0 && max > 0 && min ≤ max

/-- A mission record as used by `calculateAverageTjm`. -/
structure Mission where
  tjm_min : ℚ
  tjm_max : ℚ

/-- `calculateAverageTjm`: 0 on the empty list, otherwise
`Math.round` of the mean of the per-mission midpoints, accumulated
with `reduce` exactly as in the source.  `Math.round` (round half
towards positive infinity) is Mathlib's `round` on `ℚ`. -/
def calculateAverageTjm (missions : List Mission) : Int :=
  if missions.length = 0 then 0
  else
    round ((missions.foldl (fun sum m => sum + (m.tjm_min + m.tjm_max) / 2) 0) /
      (missions.length : ℚ))

set_option maxHeartbeats 2000000 in
/-- Every value stored in `techMap` is a fixed point of
`normalizeTechnology`. -/
theorem techMap_canonical_fixed (s v : String) (h : techMap s = some v) :
    normalizeTechnology v = v := by
  unfold techMap at h
  split_ifs at h <;> (injection h with h2; subst h2; decide)

/-- Helper: folding `+ f m` over a list starting from `a` is `a` plus
the sum of the mapped list. -/
theorem foldl_add_map_sum (f : Mission → ℚ) (l : List Mission) (a : ℚ) :
    l.foldl (fun s m => s + f m) a = a + (l.map f).sum := by
  induction l generalizing a with
  | nil => simp
  | cons m l ih => simp [ih (a + f m)]; ring

/-- C2: technology normalization is an exact-match, case-insensitive
lookup against the static mapping: inputs whose lowercased form is a
key of `techMap` are mapped to the stored canonical value (so
"reactjs", "REACT" and "react" all normalize to "React"), and every
other input is returned unchanged. -/
theorem normalizeTechnology_lookup_spec :
    (∀ t v : String, techMap (jsToLower t) = some v → normalizeTechnology t = v) ∧
    (∀ t : String, techMap (jsToLower t) = none → normalizeTechnology t = t) ∧
    (normalizeTechnology "reactjs" = "React" ∧ normalizeTechnology "REACT" = "React" ∧
      normalizeTechnology "react" = "React") :=
  ⟨fun t v h => by simp [normalizeTechnology, h],
   fun t h => by simp [normalizeTechnology, h],
   by decide, by decide, by decide⟩

/-- Witness for C2 at the concrete input "REACT". -/
theorem normalizeTechnology_lookup_spec_witness :
    techMap (jsToLower "REACT") = some "React" ∧ normalizeTechnology "REACT" = "React" :=
  ⟨by decide, normalizeTechnology_lookup_spec.1 "REACT" "React" (by decide)⟩

/-- C3: a TJM range is accepted by `isValidTjmRange` iff both bounds
are positive and `min ≤ max`; hence every accepted pair is ordered,
and a pair with `min > max` is flagged invalid. -/
theorem isValidTjmRange_spec :
    (∀ min max : Int, isValidTjmRange min max = true ↔ 0 < min ∧ 0 < max ∧ min ≤ max) ∧
    (∀ min max : Int, isValidTjmRange min max = true → min ≤ max) ∧
    (∀ min max : Int, min > max → isValidTjmRange min max = false) := by
  refine ⟨fun min max => ?_, fun min max h => ?_, fun min max h => ?_⟩ <;>
    simp only [isValidTjmRange, Bool.and_eq_true, decide_eq_true_eq,
      Bool.and_eq_false_iff, decide_eq_false_iff_not] at * <;> omega

/-- Witness for C3 at the concrete range (400, 600). -/
theorem isValidTjmRange_spec_witness :
    isValidTjmRange 400 600 = true ∧ (400 : Int) ≤ 600 :=
  ⟨by decide, isValidTjmRange_spec.2.1 400 600 (by decide)⟩

/-- C9: `calculateAverageTjm` returns 0 on the empty list and, on a
non-empty list, the arithmetic mean of the per-mission midpoints
`(tjm_min + tjm_max) / 2`, rounded half-up to the nearest integer
(the semantics of `Math.round`). -/
theorem calculateAverageTjm_spec :
    calculateAverageTjm [] = 0 ∧
    (∀ ms : List Mission, ms ≠ [] →
      calculateAverageTjm ms =
        round ((ms.map (fun m => (m.tjm_min + m.tjm_max) / 2)).sum / (ms.length : ℚ))) := by
  refine ⟨rfl, fun ms h => ?_⟩
  unfold calculateAverageTjm
  rw [if_neg (by simp [h]), foldl_add_map_sum (fun m => (m.tjm_min + m.tjm_max) / 2)]
  simp

/-- Witness for C9 at a concrete one-mission list. -/
theorem calculateAverageTjm_spec_witness :
    calculateAverageTjm [⟨400, 600⟩] =
      round ((([⟨400, 600⟩] : List Mission).map (fun m => (m.tjm_min + m.tjm_max) / 2)).sum /
        (([⟨400, 600⟩] : List Mission).length : ℚ)) :=
  calculateAverageTjm_spec.2 [⟨400, 600⟩] (by simp)

/-- C10: `normalizeTechnology` is idempotent, and every canonical
value stored in `techMap` is a fixed point of the function. -/
theorem normalizeTechnology_idempotent :
    (∀ t : String, normalizeTechnology (normalizeTechnology t) = normalizeTechnology t) ∧
    (∀ s v : String, techMap s = some v → normalizeTechnology v = v) := by
  refine ⟨fun t => ?_, techMap_canonical_fixed⟩
  cases h : techMap (jsToLower t) with
  | none =>
    have ht : normalizeTechnology t = t := by simp [normalizeTechnology, h]
    simp only [ht]
  | some v =>
    have ht : normalizeTechnology t = v := by simp [normalizeTechnology, h]
    rw [ht, techMap_canonical_fixed _ _ h]

/-! ## Offers table, loader and the `offers` API route

The `offers` table (deployment schema) carries
`UNIQUE(source, source_id)`.  The ETL `SupabaseLoader` upserts on that
key; the frontend `POST /api/offers` route calls the client's plain
`insert` and maps a database error to a 400 response, while
`GET /api/offers` maps a query error to a 500 response and a success
to the rows plus `count = data.length`. -/

/-- A stored offer row, keyed by `(source, source_id)`. -/
structure OfferRow where
  source : String
  source_id : String
  title : String
  tjm_min : Option Int
  tjm_max : Option Int
deriving DecidableEq

/-- The `(source, source_id)` key of `r` matches `(src, sid)`. -/
def keyMatch (src sid : String) (r : OfferRow) : Bool :=
  r.source = src && r.source_id = sid

/-- The table already holds a row with key `(src, sid)`. -/
def hasKey (t : List OfferRow) (src sid : String) : Bool :=
  t.any (keyMatch src sid)

/-- The rows of `t` with key `(src, sid)`. -/
def rowsWithKey (t : List OfferRow) (src sid : String) : List OfferRow :=
  t.filter (keyMatch src sid)

/-- The `UNIQUE(source, source_id)` invariant of the `offers` table:
distinct rows never share their `(source, source_id)` key. -/
def KeysUnique (t : List OfferRow) : Prop :=
  t.Pairwise (fun r s => r.source ≠ s.source ∨ r.source_id ≠ s.source_id)

instance : DecidablePred KeysUnique := fun t => by
  unfold KeysUnique; infer_instance

/-- Modelled from the spec: the ETL `SupabaseLoader` (not part of the
repository snapshot; only its README documents it) performs an
"upsert keyed on (source, source_id); later writes overwrite earlier
ones".  An existing row with the same key is replaced by the incoming
record, otherwise the record is appended. -/
def upsertOffer (t : List OfferRow) (r : OfferRow) : List OfferRow :=
  if hasKey t r.source r.source_id then
    t.map (fun s => if keyMatch r.source r.source_id s then r else s)
  else t ++ [r]

/-- Postgres `INSERT` into `offers` under the schema's
`UNIQUE(source, source_id)` constraint, as issued by the route's
`supabase.from('offers').insert(body)`: a duplicate key is rejected
with a constraint-violation error. -/
def insertOffer (t : List OfferRow) (r : OfferRow) : Except String (List OfferRow) :=
  if hasKey t r.source r.source_id then
    Except.error "duplicate key value violates unique constraint"
  else Except.ok (t ++ [r])

/-- Outcome of the `POST /api/offers` handler: HTTP status plus the
error message of a failed insert. -/
inductive PostOutcome where
  | created
  | badRequest (msg : String)
deriving DecidableEq

/-- The `POST /api/offers` handler: `insert(body)`, answering 201 on
success and 400 with the database error message on failure; the
resulting table state is returned alongside. -/
def postOffers (t : List OfferRow) (body : OfferRow) : PostOutcome × List OfferRow :=
  match insertOffer t body with
  | Except.ok t2 => (PostOutcome.created, t2)
  | Except.error e => (PostOutcome.badRequest e, t)

/-- Response of the `GET /api/offers` handler. -/
inductive GetResponse where
  | ok (rows : List OfferRow) (count : Nat) (status : Nat)
  | err (msg : String) (status : Nat)
deriving DecidableEq

/-- The `GET /api/offers` handler, abstracted over the outcome of the
database query: an error is answered with status 500 and the error
message and no rows; a success with status 200, the rows, and
`count = data.length`. -/
def getOffers (result : Except String (List OfferRow)) : GetResponse :=
  match result with
  | Except.error e => GetResponse.err e 500
  | Except.ok rows => GetResponse.ok rows rows.length 200

/-- Helper: replacing a key-matching row by `r` does not change the
`source` component of any row. -/
theorem replace_key_source (r x : OfferRow) :
    (if keyMatch r.source r.source_id x then r else x).source = x.source := by
  by_cases h : keyMatch r.source r.source_id x = true
  · have h2 := h
    simp only [keyMatch, Bool.and_eq_true, decide_eq_true_eq] at h2
    simp [h, h2.1]
  · simp [h]

/-- Helper: replacing a key-matching row by `r` does not change the
`source_id` component of any row. -/
theorem replace_key_sid (r x : OfferRow) :
    (if keyMatch r.source r.source_id x then r else x).source_id = x.source_id := by
  by_cases h : keyMatch r.source r.source_id x = true
  · have h2 := h
    simp only [keyMatch, Bool.and_eq_true, decide_eq_true_eq] at h2
    simp [h, h2.2]
  · simp [h]

/-- Helper: a key-preserving rewrite keeps `KeysUnique`. -/
theorem keysUnique_map_replace (t : List OfferRow) (r : OfferRow)
    (hu : KeysUnique t) :
    KeysUnique (t.map (fun s => if keyMatch r.source r.source_id s then r else s)) := by
  refine List.Pairwise.map _ (fun a b hab => ?_) hu
  rcases hab with h | h
  · exact Or.inl (by rw [replace_key_source, replace_key_source]; exact h)
  · exact Or.inr (by rw [replace_key_sid, replace_key_sid]; exact h)

/-- Helper: upserting preserves the uniqueness invariant. -/
theorem keysUnique_upsertOffer (t : List OfferRow) (r : OfferRow)
    (hu : KeysUnique t) : KeysUnique (upsertOffer t r) := by
  unfold upsertOffer
  split_ifs with hk
  · exact keysUnique_map_replace t r hu
  · rw [KeysUnique, List.pairwise_append]
    refine ⟨hu, List.pairwise_singleton _ _, ?_⟩
    intro a ha b hb
    simp only [List.mem_singleton] at hb
    subst hb
    simp only [hasKey, List.any_eq_true, keyMatch, Bool.and_eq_true,
      decide_eq_true_eq, not_exists, not_and] at hk
    have := hk a ha
    tauto

/-- Helper: in a key-unique table containing the key of `r`, the
rows of the rewritten table matching that key are exactly `[r]`. -/
theorem filter_map_replace (r : OfferRow) :
    ∀ t : List OfferRow, KeysUnique t →
      hasKey t r.source r.source_id = true →
      (t.map fun s => if keyMatch r.source r.source_id s then r else s).filter
        (keyMatch r.source r.source_id) = [r]
  | [], _, hk => by simp [hasKey] at hk
  | s :: rest, hu, hk => by
    rw [KeysUnique, List.pairwise_cons] at hu
    by_cases hs : keyMatch r.source r.source_id s = true
    · have hsk : s.source = r.source ∧ s.source_id = r.source_id := by
        simpa [keyMatch] using hs
      have hnone : ∀ x ∈ rest, keyMatch r.source r.source_id x = false := by
        intro x hx
        have hne := hu.1 x hx
        simp only [keyMatch, Bool.and_eq_false_iff, decide_eq_false_iff_not]
        rcases hne with h | h
        · exact Or.inl fun hc => h (hsk.1.trans hc.symm)
        · exact Or.inr fun hc => h (hsk.2.trans hc.symm)
      have hrest : (rest.map fun x =>
          if keyMatch r.source r.source_id x then r else x).filter
          (keyMatch r.source r.source_id) = [] := by
        rw [List.filter_eq_nil_iff]
        intro a ha
        simp only [List.mem_map] at ha
        obtain ⟨x, hx, hax⟩ := ha
        rw [if_neg (by simp [hnone x hx])] at hax
        subst hax
        simp [hnone x hx]
      rw [List.map_cons,
        show (if keyMatch r.source r.source_id s then r else s) = r from by simp [hs],
        List.filter_cons_of_pos (by simp [keyMatch]), hrest]
    · have hkrest : hasKey rest r.source r.source_id = true := by
        simp only [hasKey, List.any_cons, Bool.or_eq_true] at hk
        rcases hk with h | h
        · exact absurd h hs
        · exact h
      have ih := filter_map_replace r rest hu.2 hkrest
      rw [List.map_cons,
        show (if keyMatch r.source r.source_id s then r else s) = s from by simp [hs],
        List.filter_cons_of_neg (by simp [hs]), ih]

/-- Helper: in a key-unique table, the rows matching the key of a
freshly upserted record are exactly that record. -/
theorem rowsWithKey_upsertOffer (t : List OfferRow) (r : OfferRow)
    (hu : KeysUnique t) :
    rowsWithKey (upsertOffer t r) r.source r.source_id = [r] := by
  unfold upsertOffer rowsWithKey
  split_ifs with hk
  · exact filter_map_replace r t hu hk
  · rw [List.filter_append]
    have h1 : t.filter (keyMatch r.source r.source_id) = [] := by
      rw [List.filter_eq_nil_iff]
      intro a ha hc
      exact hk (by simp only [hasKey, List.any_eq_true]; exact ⟨a, ha, hc⟩)
    rw [h1]
    simp [keyMatch]

/-- C1 counterexample: the `POST /api/offers` write path does not
upsert.  Posting two bodies with the key `("test", "1")` leaves the
first write's field values in the table and answers the second write
with a 400 error, so loading the same `(source, source_id)` twice
through this path does not yield a row with the second write's
values. -/
theorem postOffers_not_last_write_wins :
    (postOffers (postOffers [] ⟨"test", "1", "A", some 400, some 600⟩).2
        ⟨"test", "1", "B", some 450, some 650⟩).1 =
      PostOutcome.badRequest "duplicate key value violates unique constraint" ∧
    (postOffers (postOffers [] ⟨"test", "1", "A", some 400, some 600⟩).2
        ⟨"test", "1", "B", some 450, some 650⟩).2 =
      [⟨"test", "1", "A", some 400, some 600⟩] ∧
    (⟨"test", "1", "A", some 400, some 600⟩ : OfferRow).title ≠
      (⟨"test", "1", "B", some 450, some 650⟩ : OfferRow).title := by
  decide

/-- C1 (amended): the ETL loader's upsert is keyed on
`(source, source_id)` with last-write-wins — upserting the same key
twice leaves exactly one row with that key, holding the second
write's field values — and every write preserves the uniqueness
invariant; the `POST /api/offers` route instead issues a plain
insert, which preserves uniqueness by rejecting a duplicate key with
a 400 error while keeping the earlier row. -/
theorem offers_dedup_spec :
    (∀ (t : List OfferRow) (r1 r2 : OfferRow), KeysUnique t →
      r1.source = r2.source → r1.source_id = r2.source_id →
      rowsWithKey (upsertOffer (upsertOffer t r1) r2) r2.source r2.source_id = [r2]) ∧
    (∀ (t : List OfferRow) (r : OfferRow), KeysUnique t → KeysUnique (upsertOffer t r)) ∧
    (∀ (t : List OfferRow) (r : OfferRow) (t2 : List OfferRow),
      insertOffer t r = Except.ok t2 → KeysUnique t → KeysUnique t2) ∧
    (∀ (t : List OfferRow) (r : OfferRow), hasKey t r.source r.source_id = true →
      postOffers t r =
        (PostOutcome.badRequest "duplicate key value violates unique constraint", t)) := by
  refine ⟨fun t r1 r2 hu h1 h2 => ?_, keysUnique_upsertOffer, fun t r t2 hins hu => ?_,
    fun t r hk => ?_⟩
  · exact rowsWithKey_upsertOffer (upsertOffer t r1) r2 (keysUnique_upsertOffer t r1 hu)
  · unfold insertOffer at hins
    split_ifs at hins with hk
    injection hins with h
    rw [← h]
    have h2 := keysUnique_upsertOffer t r hu
    unfold upsertOffer at h2
    rwa [if_neg hk] at h2
  · simp [postOffers, insertOffer, hk]

/-- Witness for C1 (amended) at a concrete pair of writes with the
same key. -/
theorem offers_dedup_spec_witness :
    rowsWithKey (upsertOffer (upsertOffer [] ⟨"test", "1", "A", some 400, some 600⟩)
        ⟨"test", "1", "B", some 450, some 650⟩) "test" "1" =
      [⟨"test", "1", "B", some 450, some 650⟩] :=
  offers_dedup_spec.1 [] ⟨"test", "1", "A", some 400, some 600⟩
    ⟨"test", "1", "B", some 450, some 650⟩ (by decide) rfl rfl

/-- C7: when the database query fails, `GET /api/offers` answers
status 500 with the error message and never the success shape (so no
offer rows are returned); on success it answers the rows together
with a `count` equal to the number of returned rows. -/
theorem getOffers_spec :
    (∀ e : String, getOffers (Except.error e) = GetResponse.err e 500) ∧
    (∀ rows : List OfferRow, getOffers (Except.ok rows) = GetResponse.ok rows rows.length 200) ∧
    (∀ result : Except String (List OfferRow), (∃ e, result = Except.error e) →
      ∀ rows n s, getOffers result ≠ GetResponse.ok rows n s) := by
  refine ⟨fun e => rfl, fun rows => rfl, fun result he rows n s => ?_⟩
  obtain ⟨e, rfl⟩ := he
  simp [getOffers]

/-- Witness for C7 at a concrete failed query. -/
theorem getOffers_spec_witness :
    getOffers (Except.error "connection refused") =
      GetResponse.err "connection refused" 500 ∧
    getOffers (Except.error "connection refused") ≠ GetResponse.ok [] 0 200 :=
  ⟨getOffers_spec.1 "connection refused",
   getOffers_spec.2.2 _ ⟨"connection refused", rfl⟩ [] 0 200⟩

/-! ## Location parsing in `GET /api/location-stats`

The route computes
`parts = offer.location.split(',').map(p => p.trim())`,
`city = parts[0] || offer.location` and
`region = parts[1] || parts[0] || 'France'`; its only static lookup
table maps cities to map coordinates. -/

/-- JavaScript `String.prototype.split(',')` on a character list:
splits at every comma; the empty string splits to `[[]]`. -/
def splitComma : List Char → List (List Char)
  | [] => [[]]
  | c :: cs =>
    if c = ',' then [] :: splitComma cs
    else
      match splitComma cs with
      | [] => [[c]]
      | p :: ps => (c :: p) :: ps

/-- JavaScript `String.prototype.trim()`: drop whitespace from both
ends. -/
def trimChars (cs : List Char) : List Char :=
  ((cs.dropWhile Char.isWhitespace).reverse.dropWhile Char.isWhitespace).reverse

/-- The city/region extraction of the `location-stats` route.
A missing `parts[i]` and an empty trimmed part are both falsy under
JavaScript `||`, so both are modelled as `[]`. -/
def parseCityRegion (loc : List Char) : List Char × List Char :=
  let parts := (splitComma loc).map trimChars
  let p0 := parts.getD 0 []
  let p1 := parts.getD 1 []
  let city := if p0 = [] then loc else p0
  let region := if p1 ≠ [] then p1 else if p0 ≠ [] then p0 else "France".data
  (city, region)

/-- Modelled from the spec: the "static city→region fallback table"
the specification attributes to location parsing.  The repository
snapshot holds no such region table (the ETL `LocationParser` module
is absent; the only static table in the route maps cities to
coordinates); the entries follow the ETL README examples, which send
Paris to Île-de-France and Lyon to Auvergne-Rhône-Alpes. -/
def specCityRegionTable (city : String) : Option String :=
  if city = "Paris" then some "Île-de-France"
  else if city = "Lyon" then some "Auvergne-Rhône-Alpes"
  else none

/-- Helper: splitting a comma-free list yields that list alone. -/
theorem splitComma_no_comma (l : List Char) (h : ',' ∉ l) : splitComma l = [l] := by
  induction l with
  | nil => rfl
  | cons c cs ih =>
    have hc : ¬c = ',' := fun hc => h (by simp [hc])
    have := ih (fun hm => h (List.mem_cons_of_mem c hm))
    simp [splitComma, hc, this]

/-- Helper: splitting at the first comma separates the comma-free
prefix. -/
theorem splitComma_append (a b : List Char) (h : ',' ∉ a) :
    splitComma (a ++ ',' :: b) = a :: splitComma b := by
  induction a with
  | nil => simp [splitComma]
  | cons c cs ih =>
    have hc : ¬c = ',' := fun hc => h (by simp [hc])
    have := ih (fun hm => h (List.mem_cons_of_mem c hm))
    simp [splitComma, hc, this]

/-- C6 counterexample: for the comma-free location "Lyon" the route
derives region = "Lyon", the city itself; no static city→region table
is consulted, which per the ETL README would give
"Auvergne-Rhône-Alpes". -/
theorem parseCityRegion_no_region_table :
    (parseCityRegion "Lyon".data).2 = "Lyon".data ∧
    specCityRegionTable "Lyon" = some "Auvergne-Rhône-Alpes" ∧
    "Lyon".data ≠ "Auvergne-Rhône-Alpes".data := by
  decide

/-- C6 (amended): location parsing splits the string on commas; the
city is the trimmed part before the first comma and the region the
trimmed part between the first and second commas; when no non-empty
region part is present the region falls back to the city itself (and
to "France" when even the city part is blank) — no static
city→region table is involved. -/
theorem parseCityRegion_spec :
    (∀ a b : List Char, ',' ∉ a → ',' ∉ b → trimChars a ≠ [] → trimChars b ≠ [] →
      parseCityRegion (a ++ ',' :: b) = (trimChars a, trimChars b)) ∧
    (∀ l : List Char, ',' ∉ l → trimChars l ≠ [] →
      parseCityRegion l = (trimChars l, trimChars l)) := by
  constructor
  · intro a b ha hb hta htb
    rw [parseCityRegion, splitComma_append a b ha, splitComma_no_comma b hb]
    simp [hta, htb]
  · intro l hl htl
    rw [parseCityRegion, splitComma_no_comma l hl]
    simp [htl]

/-- Witness for C6 (amended) at a concrete "city, region" string. -/
theorem parseCityRegion_spec_witness :
    parseCityRegion ("Paris ".data ++ ',' :: " IDF".data) =
      (trimChars "Paris ".data, trimChars " IDF".data) :=
  parseCityRegion_spec.1 "Paris ".data " IDF".data (by decide) (by decide)
    (by decide) (by decide)

/-! ## `calculateMedian` in the stats route -/

/-- `calculateMedian`: sort a copy ascending, take the middle element
when the length is odd and the mean of the two middle elements when it
is even (`mid = Math.floor(length / 2)` is `Nat` division).  The
ascending JavaScript comparator `(a, b) => a - b` is modelled by
insertion sort with `≤`, which agrees with every ascending sort. -/
def calculateMedian (values : List ℚ) : ℚ :=
  let sorted := List.insertionSort (· ≤ ·) values
  let mid := sorted.length / 2
  if sorted.length % 2 = 0 then (sorted.getD (mid - 1) 0 + sorted.getD mid 0) / 2
  else sorted.getD mid 0

/-- Helper: sorting a list equals any sorted rearrangement of it. -/
theorem insertionSort_eq_of_perm_sorted (l s : List ℚ) (hp : l.Perm s)
    (hs : s.Sorted (· ≤ ·)) : List.insertionSort (· ≤ ·) l = s :=
  List.eq_of_perm_of_sorted ((List.perm_insertionSort _ l).trans hp)
    (List.sorted_insertionSort _ l) hs

/-- C8: on any non-empty list, `calculateMedian` returns the middle
element of the ascending sorted arrangement when the length is odd,
and the arithmetic mean of the two middle elements when it is even;
the result is invariant under permutation of the input. -/
theorem calculateMedian_spec :
    (∀ l1 l2 : List ℚ, l1.Perm l2 → calculateMedian l1 = calculateMedian l2) ∧
    (∀ l s : List ℚ, l.Perm s → s.Sorted (· ≤ ·) → s ≠ [] →
      calculateMedian l =
        if s.length % 2 = 1 then s.getD (s.length / 2) 0
        else (s.getD (s.length / 2 - 1) 0 + s.getD (s.length / 2) 0) / 2) := by
  constructor
  · intro l1 l2 hp
    have h : List.insertionSort (· ≤ ·) l1 = List.insertionSort (· ≤ ·) l2 :=
      insertionSort_eq_of_perm_sorted l1 _
        (hp.trans (List.perm_insertionSort _ l2).symm)
        (List.sorted_insertionSort _ l2)
    rw [calculateMedian, calculateMedian, h]
  · intro l s hp hs _
    rw [calculateMedian, insertionSort_eq_of_perm_sorted l s hp hs]
    rcases Nat.mod_two_eq_zero_or_one s.length with h | h
    · rw [if_pos h, if_neg (by omega)]
    · rw [if_neg (by omega), if_pos h]

/-- Witness for C8 at the concrete list [3, 1, 2]. -/
theorem calculateMedian_spec_witness : calculateMedian [3, 1, 2] = 2 := by
  have h := calculateMedian_spec.2 [3, 1, 2] [1, 2, 3] (by decide) (by decide) (by decide)
  simpa using h

/-! ## ETL rate parser (`TJMParser`, modelled from the spec)

The ETL Python module is not part of the repository snapshot; only
its README documents it.  The spec: the parser recognizes the
patterns "X-Y€", "X à Y€", "TJM: X€" and single-value forms in
free-form text, returns (min, max), and fails silently — no
exception, fields left unset — when no rate is found. -/

/-- Longest digit prefix of a character list, with the remaining
suffix. -/
def takeDigits : List Char → List Char × List Char
  | [] => ([], [])
  | c :: cs =>
    if c.isDigit then
      let r := takeDigits cs
      (c :: r.1, r.2)
    else ([], c :: cs)

/-- Numeric value of a digit string, most significant digit first. -/
def natOfDigits (ds : List Char) : Nat :=
  ds.foldl (fun n c => 10 * n + (c.toNat - 48)) 0

/-- Modelled from the spec: the "X-Y€" range pattern of the ETL rate
parser. -/
def tryRange (cs : List Char) : Option (Nat × Nat) :=
  let d1 := takeDigits cs
  if d1.1 = [] then none
  else
    match d1.2 with
    | '-' :: r2 =>
      let d2 := takeDigits r2
      if d2.1 = [] then none
      else
        match d2.2 with
        | '€' :: _ => some (natOfDigits d1.1, natOfDigits d2.1)
        | _ => none
    | _ => none

/-- Modelled from the spec: the "X à Y€" range pattern of the ETL
rate parser. -/
def tryARange (cs : List Char) : Option (Nat × Nat) :=
  let d1 := takeDigits cs
  if d1.1 = [] then none
  else
    match d1.2 with
    | ' ' :: 'à' :: ' ' :: r2 =>
      let d2 := takeDigits r2
      if d2.1 = [] then none
      else
        match d2.2 with
        | '€' :: _ => some (natOfDigits d1.1, natOfDigits d2.1)
        | _ => none
    | _ => none

/-- Modelled from the spec: the "TJM: X€" labelled single-value
pattern of the ETL rate parser; min and max coincide. -/
def tryTjmLabel : List Char → Option (Nat × Nat)
  | 'T' :: 'J' :: 'M' :: ':' :: ' ' :: r =>
    let d := takeDigits r
    if d.1 = [] then none
    else
      match d.2 with
      | '€' :: _ => some (natOfDigits d.1, natOfDigits d.1)
      | _ => none
  | _ => none

/-- Modelled from the spec: the bare single-value pattern "X€" of the
ETL rate parser; min and max coincide. -/
def trySingle (cs : List Char) : Option (Nat × Nat) :=
  let d := takeDigits cs
  if d.1 = [] then none
  else
    match d.2 with
    | '€' :: _ => some (natOfDigits d.1, natOfDigits d.1)
    | _ => none

/-- Modelled from the spec: the recognized patterns tried in order at
one position, ranges before single-value forms. -/
def tryPatterns (cs : List Char) : Option (Nat × Nat) :=
  match tryRange cs with
  | some r => some r
  | none =>
    match tryARange cs with
    | some r => some r
    | none =>
      match tryTjmLabel cs with
      | some r => some r
      | none => trySingle cs

/-- Modelled from the spec: the ETL rate parser scans free text left
to right for the first position where a pattern matches; when none
does it returns `none` (silent failure, the rate stays unset). -/
def parseTjm : List Char → Option (Nat × Nat)
  | [] => none
  | c :: cs =>
    match tryPatterns (c :: cs) with
    | some r => some r
    | none => parseTjm cs

/-- Helper: `takeDigits` consumes exactly an all-digit prefix up to
the first non-digit. -/
theorem takeDigits_all_digits (ds : List Char) (x : Char) (rest : List Char)
    (hds : ∀ c ∈ ds, c.isDigit = true) (hx : x.isDigit = false) :
    takeDigits (ds ++ x :: rest) = (ds, x :: rest) := by
  induction ds with
  | nil => simp [takeDigits, hx]
  | cons d ds ih =>
    have hd : d.isDigit = true := hds d (by simp)
    have := ih (fun c hc => hds c (by simp [hc]))
    simp [takeDigits, hd, this]

/-- C4: every rate string of the shape "X-Y€" (digit strings X, Y)
parses to min = X and max = Y, and an input in which no recognized
pattern matches at any position yields `none`: the parser is a total
function whose failure is the silent `none`, never an exception. -/
theorem parseTjm_spec :
    (∀ ds es : List Char, ds ≠ [] → es ≠ [] →
      (∀ c ∈ ds, c.isDigit = true) → (∀ c ∈ es, c.isDigit = true) →
      parseTjm (ds ++ '-' :: (es ++ ['€'])) = some (natOfDigits ds, natOfDigits es)) ∧
    (∀ cs : List Char, (∀ n, n ≤ cs.length → tryPatterns (List.drop n cs) = none) →
      parseTjm cs = none) := by
  constructor
  · intro ds es hds0 hes0 hds hes
    have h1 : takeDigits (ds ++ '-' :: (es ++ ['€'])) = (ds, '-' :: (es ++ ['€'])) :=
      takeDigits_all_digits ds '-' (es ++ ['€']) hds (by decide)
    have h2 : takeDigits (es ++ '€' :: []) = (es, '€' :: []) :=
      takeDigits_all_digits es '€' [] hes (by decide)
    have hr : tryRange (ds ++ '-' :: (es ++ ['€'])) =
        some (natOfDigits ds, natOfDigits es) := by
      simp [tryRange, h1, h2, hds0, hes0]
    rcases ds with _ | ⟨d, ds'⟩
    · exact absurd rfl hds0
    · have hp : tryPatterns (d :: (ds' ++ '-' :: (es ++ ['€']))) =
          some (natOfDigits (d :: ds'), natOfDigits es) := by
        rw [tryPatterns]
        rw [show d :: (ds' ++ '-' :: (es ++ ['€'])) = (d :: ds') ++ '-' :: (es ++ ['€'])
          from rfl, hr]
      simp [parseTjm, hp]
  · intro cs h
    induction cs with
    | nil => rfl
    | cons c cs ih =>
      have h0 := h 0 (by omega)
      simp only [List.drop_zero] at h0
      rw [parseTjm, h0]
      exact ih fun n hn => by
        have := h (n + 1) (by simp only [List.length_cons]; omega)
        simpa [List.drop_succ_cons] using this

/-- Witness for C4 at the concrete inputs "400-600€" and "no rate". -/
theorem parseTjm_spec_witness :
    parseTjm (['4', '0', '0'] ++ '-' :: (['6', '0', '0'] ++ ['€'])) = some (400, 600) ∧
    parseTjm "no rate".data = none := by
  constructor
  · have h := parseTjm_spec.1 ['4', '0', '0'] ['6', '0', '0'] (by decide) (by decide)
      (by decide) (by decide)
    rw [h]
    decide
  · exact parseTjm_spec.2 "no rate".data (by decide)

/-! ## ETL quality scorer (`QualityCalculator`, modelled from the spec)

The ETL Python module is not part of the repository snapshot; the
sub-scores and category contents below follow the spec and the ETL
README: completeness (required, important and optional field
presence, weight 40%), accuracy (plausible TJM range 100–2000€,
meaningful title, 1–15 technologies, valid company, weight 40%),
consistency (TJM ordering, no duplicate technologies, coherent
timestamp, weight 20%). -/

/-- A raw scraped record as seen by the quality scorer. -/
structure RawOffer where
  source : Option String
  source_id : Option String
  title : Option String
  url : Option String
  company : Option String
  tjm_min : Option Int
  tjm_max : Option Int
  technologies : List String
  location : Option String
  description : Option String
  seniority_level : Option String
  remote_policy : Option String
  scraped_at : Option Int

/-- Indicator of a boolean check, as a rational 0 or 1. -/
def checkVal (b : Bool) : ℚ := if b then 1 else 0

/-- Modelled from the spec: the completeness sub-score — presence of
the required fields (source, source_id, title, url), the important
fields (company, TJM, technologies, location) and the optional fields
(description, seniority_level, remote_policy); each category
contributes the fraction of its fields present, with category weights
1/2, 7/20 and 3/20. -/
def completenessScore (o : RawOffer) : ℚ :=
  let req := (checkVal o.source.isSome + checkVal o.source_id.isSome +
    checkVal o.title.isSome + checkVal o.url.isSome) / 4
  let imp := (checkVal o.company.isSome + checkVal (o.tjm_min.isSome && o.tjm_max.isSome) +
    checkVal (!o.technologies.isEmpty) + checkVal o.location.isSome) / 4
  let opt := (checkVal o.description.isSome + checkVal o.seniority_level.isSome +
    checkVal o.remote_policy.isSome) / 3
  1/2 * req + 7/20 * imp + 3/20 * opt

/-- Modelled from the spec: the accuracy sub-score — fraction of the
plausibility checks passed: meaningful title (> 10 characters), TJM
within the plausible 100–2000€ band, 1–15 technologies, non-empty
company name. -/
def accuracyScore (o : RawOffer) : ℚ :=
  (checkVal (decide ((o.title.getD "").length > 10)) +
   checkVal (match o.tjm_min, o.tjm_max with
     | some mn, some mx => decide (100 ≤ mn) && decide (mx ≤ 2000)
     | _, _ => false) +
   checkVal (decide (1 ≤ o.technologies.length) && decide (o.technologies.length ≤ 15)) +
   checkVal (decide ((o.company.getD "").length > 0))) / 4

/-- Modelled from the spec: the consistency sub-score — fraction of
the internal-consistency checks passed: `tjm_min ≤ tjm_max` when both
bounds are present, no duplicate technologies, a coherent (present)
scrape timestamp. -/
def consistencyScore (o : RawOffer) : ℚ :=
  (checkVal (match o.tjm_min, o.tjm_max with
     | some mn, some mx => decide (mn ≤ mx)
     | _, _ => true) +
   checkVal (decide o.technologies.Nodup) +
   checkVal o.scraped_at.isSome) / 3

/-- Modelled from the spec: the overall quality score, the weighted
sum 40% completeness + 40% accuracy + 20% consistency. -/
def qualityScore (o : RawOffer) : ℚ :=
  2/5 * completenessScore o + 2/5 * accuracyScore o + 1/5 * consistencyScore o

/-- Helper: an indicator lies in [0, 1]. -/
theorem checkVal_bounds (b : Bool) : 0 ≤ checkVal b ∧ checkVal b ≤ 1 := by
  cases b <;> simp [checkVal]

/-- Helper: the completeness sub-score lies in [0, 1]. -/
theorem completenessScore_bounds (o : RawOffer) :
    0 ≤ completenessScore o ∧ completenessScore o ≤ 1 := by
  obtain ⟨a1, b1⟩ := checkVal_bounds o.source.isSome
  obtain ⟨a2, b2⟩ := checkVal_bounds o.source_id.isSome
  obtain ⟨a3, b3⟩ := checkVal_bounds o.title.isSome
  obtain ⟨a4, b4⟩ := checkVal_bounds o.url.isSome
  obtain ⟨a5, b5⟩ := checkVal_bounds o.company.isSome
  obtain ⟨a6, b6⟩ := checkVal_bounds (o.tjm_min.isSome && o.tjm_max.isSome)
  obtain ⟨a7, b7⟩ := checkVal_bounds (!o.technologies.isEmpty)
  obtain ⟨a8, b8⟩ := checkVal_bounds o.location.isSome
  obtain ⟨a9, b9⟩ := checkVal_bounds o.description.isSome
  obtain ⟨a10, b10⟩ := checkVal_bounds o.seniority_level.isSome
  obtain ⟨a11, b11⟩ := checkVal_bounds o.remote_policy.isSome
  unfold completenessScore
  constructor <;> · simp only; linarith

/-- Helper: the accuracy sub-score lies in [0, 1]. -/
theorem accuracyScore_bounds (o : RawOffer) :
    0 ≤ accuracyScore o ∧ accuracyScore o ≤ 1 := by
  obtain ⟨a1, b1⟩ := checkVal_bounds (decide ((o.title.getD "").length > 10))
  obtain ⟨a2, b2⟩ := checkVal_bounds (match o.tjm_min, o.tjm_max with
    | some mn, some mx => decide (100 ≤ mn) && decide (mx ≤ 2000)
    | _, _ => false)
  obtain ⟨a3, b3⟩ := checkVal_bounds
    (decide (1 ≤ o.technologies.length) && decide (o.technologies.length ≤ 15))
  obtain ⟨a4, b4⟩ := checkVal_bounds (decide ((o.company.getD "").length > 0))
  unfold accuracyScore
  constructor <;> linarith

/-- Helper: the consistency sub-score lies in [0, 1]. -/
theorem consistencyScore_bounds (o : RawOffer) :
    0 ≤ consistencyScore o ∧ consistencyScore o ≤ 1 := by
  obtain ⟨a1, b1⟩ := checkVal_bounds (match o.tjm_min, o.tjm_max with
    | some mn, some mx => decide (mn ≤ mx)
    | _, _ => true)
  obtain ⟨a2, b2⟩ := checkVal_bounds (decide o.technologies.Nodup)
  obtain ⟨a3, b3⟩ := checkVal_bounds o.scraped_at.isSome
  unfold consistencyScore
  constructor <;> linarith

/-- C5: for every input record the quality score is the weighted sum
40% completeness + 40% accuracy + 20% consistency of sub-scores each
in [0, 1], and therefore itself lies in [0, 1]. -/
theorem qualityScore_spec (o : RawOffer) :
    qualityScore o =
      2/5 * completenessScore o + 2/5 * accuracyScore o + 1/5 * consistencyScore o ∧
    0 ≤ qualityScore o ∧ qualityScore o ≤ 1 := by
  obtain ⟨c1, c2⟩ := completenessScore_bounds o
  obtain ⟨d1, d2⟩ := accuracyScore_bounds o
  obtain ⟨e1, e2⟩ := consistencyScore_bounds o
  refine ⟨rfl, ?_, ?_⟩ <;> · unfold qualityScore; linarith

/-- Witness for C10 at concrete inputs "reactjs" and "react". -/
theorem normalizeTechnology_idempotent_witness :
    normalizeTechnology (normalizeTechnology "reactjs") = normalizeTechnology "reactjs" ∧
    normalizeTechnology "React" = "React" :=
  ⟨normalizeTechnology_idempotent.1 "reactjs",
   normalizeTechnology_idempotent.2 "react" "React" (by decide)⟩

end AWA
